import Mathlib

/-!
Shallow embedding of the `lang_code_reader` repository (Python) for checking its
natural-language specification.

The embedded code lives in:
* `src/lang_code_reader/internal/code_fs/github.py` — `SearchOptions`,
  `FileSearchResultModel`, `GitHubFileContentModel`, `GitHubClient`
  (`read_file`, `search_files`, `get_directory_structure`, `_calculate_score`);
* `src/lang_code_reader/biz/service/get_code_source.py` — `CodeSourceService.new`;
* `src/lang_code_reader/agent/graph/types.py` — the exploration-state data model
  (`FileItem`, `HistoryEntry`, `CurrentFile`, the `UserFeedback` union, `State`).

Conventions: Python strings are modelled through their character lists
(`String.data`), since the embedded operations (`in`, `startswith`, `endswith`,
`lower`, `split`, `strip`) are character-wise; Python `int` is `Int`, sizes and
scores that the source only ever builds from non-negative integer literals are
`Nat`; `None`-able values are `Option`; raised exceptions are the error side of
`Except`.  The remote provider (GitHub's REST API, reached through `gidgethub`)
is modelled as a function from requests to optional responses, `none` standing
for the not-found failure the source catches.
-/

namespace LangCodeReader

/-! ### Python string primitives used by the source -/

/-- Python `sub in s` (substring containment on character sequences). -/
def strContains (s sub : String) : Bool := decide (sub.data <:+: s.data)

/-- Python `s.startswith(pre)`. -/
def strStartsWith (s pre : String) : Bool := decide (pre.data <+: s.data)

/-- Python `s.endswith(suf)`. -/
def strEndsWith (s suf : String) : Bool := decide (suf.data <:+ s.data)

/-- Python `s.lower()` (character-wise lowering, as on the ASCII paths and
queries the source handles). -/
def strLower (s : String) : String := String.mk (s.data.map Char.toLower)

/-- Python `s.count('/')`: the number of slash characters in `s`. -/
def slashCount (s : String) : Nat := s.data.count '/'

/-- Python `s.split(sep)` for a one-character separator, on character lists. -/
def splitCharList (sep : Char) : List Char → List (List Char)
  | [] => [[]]
  | c :: rest =>
    if c = sep then [] :: splitCharList sep rest
    else
      match splitCharList sep rest with
      | [] => [[c]]
      | g :: gs => (c :: g) :: gs

/-- Python `path.split("/")[-1]`: the final path component. -/
def lastComponent (path : String) : String :=
  String.mk ((splitCharList '/' path.data).getLastD [])

/-- Python `s.strip("/")`: remove leading and trailing slashes. -/
def stripSlashes (s : String) : String :=
  String.mk (((s.data.dropWhile (fun c => c = '/')).reverse.dropWhile
    (fun c => c = '/')).reverse)

/-! ### `SearchOptions` (github.py lines 16-26) -/

/-- The `SearchOptions` pydantic model: an extension filter (with leading dot),
a result cap, and the two search-mode flags, with the source's defaults. -/
structure SearchOptions where
  extension : Option String := none
  max_results : Int := 100
  include_content : Bool := false
  search_in_content : Bool := false
deriving Repr, DecidableEq

/-- The error raised by a rejected `SearchOptions` construction (pydantic
validation failure; `InvalidOptions` in the spec's taxonomy). -/
inductive OptionsError
  | InvalidOptions
deriving Repr, DecidableEq

/-- Construction of `SearchOptions`: pydantic validates `max_results` against
`ge=1` (line 18) and runs the `extension_must_start_with_dot` validator
(lines 22-26); any violation rejects the whole construction. -/
def mkSearchOptions (extension : Option String) (max_results : Int)
    (include_content : Bool) (search_in_content : Bool) :
    Except OptionsError SearchOptions :=
  if (match extension with
      | some v => !(strStartsWith v ".")
      | none => false) then
    .error .InvalidOptions
  else if max_results < 1 then
    .error .InvalidOptions
  else
    .ok { extension := extension, max_results := max_results,
          include_content := include_content,
          search_in_content := search_in_content }

/-! ### `_calculate_score` (github.py lines 252-274) -/

/-- The fixed extension list of github.py line 270. -/
def commonExtensions : List String := [".py", ".ts", ".js", ".md", ".json", ".tsx", ".jsx"]

/-- The `for ext in [...]: if filename.endswith(ext): score += 5; break` loop
(github.py lines 270-273): the first matching extension adds five, once. -/
def extensionBonus (filename : String) : List String → Nat
  | [] => 0
  | e :: rest => if strEndsWith filename e then 5 else extensionBonus filename rest

/-- Embedding of `GitHubClient._calculate_score` (github.py lines 252-274).
The accumulating float `score` only ever receives the integer contributions
100/80/60/40, `max(0, 20 - depth)` and 5, so it is modelled as a `Nat`;
`max(0, 20 - depth)` is `Nat` truncated subtraction `20 - depth`. -/
def calculate_score (path filename query : String) : Nat :=
  let ql := strLower query
  let fnl := strLower filename
  let pl := strLower path
  let base : Nat :=
    if fnl = ql then 100
    else if strStartsWith fnl ql then 80
    else if strContains fnl ql then 60
    else if strContains pl ql then 40
    else 0
  base + (20 - slashCount path) + extensionBonus filename commonExtensions

/-! ### base64 decoding (`base64.b64decode` at github.py lines 120-121) -/

/-- Six-bit value of a standard base64 alphabet character. -/
def b64Val (c : Char) : Option Nat :=
  if 'A' ≤ c ∧ c ≤ 'Z' then some (c.toNat - 65)
  else if 'a' ≤ c ∧ c ≤ 'z' then some (c.toNat - 71)
  else if '0' ≤ c ∧ c ≤ '9' then some (c.toNat + 4)
  else if c = '+' then some 62
  else if c = '/' then some 63
  else none

/-- Decode a base64 character stream four characters at a time into bytes,
honouring `=` padding; `none` models the decoding error raised on malformed
input. -/
def b64Quantum : List Char → Option (List Nat)
  | [] => some []
  | a :: b :: c :: d :: rest => do
    let va ← b64Val a
    let vb ← b64Val b
    if c = '=' then
      if d = '=' ∧ rest = [] then some [va * 4 + vb / 16] else none
    else do
      let vc ← b64Val c
      if d = '=' then
        if rest = [] then some [va * 4 + vb / 16, (vb % 16) * 16 + vc / 4]
        else none
      else do
        let vd ← b64Val d
        let tail ← b64Quantum rest
        some ((va * 4 + vb / 16) :: ((vb % 16) * 16 + vc / 4) :: ((vc % 4) * 64 + vd) :: tail)
  | _ => none

/-- Model of `base64.b64decode`: characters outside the alphabet and padding
are discarded, then complete quanta are decoded to bytes. -/
def b64decode (s : String) : Option (List Nat) :=
  b64Quantum (s.data.filter (fun c => (b64Val c).isSome || c = '='))

/-! ### The GitHub client data model (github.py lines 29-51 and 92-99) -/

/-- `GitHubFileContentModel` (github.py lines 40-51): the parsed contents-API
response for a file. -/
structure GitHubFileContentModel where
  type : String
  encoding : String
  content : String
  sha : String := ""
  size : Int := 0
  name : String := ""
  path : String := ""
  url : String := ""
  git_url : String := ""
  html_url : String := ""
  download_url : Option String := none
deriving Repr, DecidableEq

/-- `FileSearchResultModel` (github.py lines 29-37).  `content` holds the byte
sequence produced by `read_file`'s decoding; `score` holds the integer values
produced by `_calculate_score` (or by the provider). -/
structure FileSearchResultModel where
  path : String
  name : String
  type : String
  size : Option Int := none
  content : Option (List Nat) := none
  sha : Option String := none
  url : Option String := none
  score : Option Nat := none
deriving Repr, DecidableEq

/-- Constructor state of `GitHubClient.__init__` (github.py lines 93-99). -/
structure GitHubClient where
  owner : String
  repo : String
  token : Option String := none
  default_ref : String := "main"
deriving Repr, DecidableEq

/-- A provider REST request as issued through `gidgethub`'s `getitem`: an
endpoint string plus query parameters. -/
structure GHRequest where
  endpoint : String
  params : List (String × String) := []
deriving Repr, DecidableEq

/-- The storage-client error taxonomy raised by `GitHubClient` (spec §7):
`NotFound` is the `FileNotFoundError` of lines 113 and 215, `NotAFile` the
`ValueError` of line 117 (carrying the offending type), `UnsupportedEncoding`
the `ValueError` of line 119 (carrying the offending encoding), and
`DecodeError` the exception `base64.b64decode` raises on malformed content. -/
inductive ReadFileError
  | NotFound
  | NotAFile (t : String)
  | UnsupportedEncoding (e : String)
  | DecodeError
deriving Repr, DecidableEq

/-! ### `read_file` (github.py lines 101-123) -/

/-- The request issued by `GitHubClient.read_file` (github.py line 108): the
contents endpoint for `path`, with no query parameters — in particular no
`ref` parameter, although `ref` was computed at line 105. -/
def readFileRequest (c : GitHubClient) (path : String) : GHRequest :=
  { endpoint := "/repos/" ++ c.owner ++ "/" ++ c.repo ++ "/contents/" ++ path }

/-- Embedding of `GitHubClient.read_file` (github.py lines 101-123).
`provider` maps requests to responses, `none` standing for the not-found
exception caught at line 112.  The `ref` argument is defaulted from the
client (line 105) but, as in the source, takes no part in the request. -/
def read_file (provider : GHRequest → Option GitHubFileContentModel)
    (c : GitHubClient) (path : String) (ref : Option String := none) :
    Except ReadFileError (List Nat) :=
  let _ref := ref.getD c.default_ref
  match provider (readFileRequest c path) with
  | none => .error .NotFound
  | some gh =>
    if gh.type ≠ "file" then .error (.NotAFile gh.type)
    else if gh.encoding ≠ "base64" then .error (.UnsupportedEncoding gh.encoding)
    else
      match b64decode gh.content with
      | none => .error .DecodeError
      | some bytes => .ok bytes

/-! ### `search_files` (github.py lines 125-203) -/

/-- One item of the `items` array of a `/search/code` response (github.py
lines 140-145), restricted to the fields the source consumes. -/
structure SearchCodeItem where
  name : String
  path : String
  sha : Option String := none
  url : Option String := none
  score : Option Nat := none
deriving Repr, DecidableEq

/-- One entry of the `tree` array of a recursive tree listing (github.py
lines 169-187), restricted to the fields the source consumes. -/
structure TreeItem where
  type : String
  path : String
  size : Option Int := none
  sha : Option String := none
  url : Option String := none
deriving Repr, DecidableEq

/-- One content-search result (github.py lines 141-161): fields copied from
the provider item; when `include_content` is set the content is fetched
through `read_file` at the default ref, a failure degrading to `none`
(lines 154-160). -/
def contentResult (provider : GHRequest → Option GitHubFileContentModel)
    (c : GitHubClient) (opts : SearchOptions) (item : SearchCodeItem) :
    FileSearchResultModel :=
  { path := item.path, name := item.name, type := "file",
    sha := item.sha, url := item.url, score := item.score,
    content :=
      if opts.include_content then
        (read_file provider c item.path (some c.default_ref)).toOption
      else none }

/-- The filter conditions of the local search loop (github.py lines 172-180):
blob entries, carrying the extension filter if one is given, whose path or
file name contains the query case-insensitively. -/
def treeItemMatches (query : String) (opts : SearchOptions) (item : TreeItem) :
    Bool :=
  item.type == "blob"
    && (match opts.extension with
        | some e => strEndsWith item.path e
        | none => true)
    && (strContains (strLower item.path) (strLower query)
        || strContains (strLower (lastComponent item.path)) (strLower query))

/-- One local-mode search result (github.py lines 181-196) for a tree item
that passed the filters: fields copied from the item, the score computed by
`_calculate_score`, and—when `include_content`—the content fetched through
`read_file` at the default ref, a failure degrading to `none`. -/
def localResult (provider : GHRequest → Option GitHubFileContentModel)
    (c : GitHubClient) (opts : SearchOptions) (query : String)
    (item : TreeItem) : FileSearchResultModel :=
  let filename := lastComponent item.path
  { path := item.path, name := filename, type := "file", size := item.size,
    sha := item.sha, url := item.url,
    score := some (calculate_score item.path filename query),
    content :=
      if opts.include_content then
        (read_file provider c item.path (some c.default_ref)).toOption
      else none }

/-- The local-mode scan (github.py lines 170-200): walk the tree in order,
keep matching entries, and `break` once `count` reaches `max_results`. -/
def searchLoop (provider : GHRequest → Option GitHubFileContentModel)
    (c : GitHubClient) (query : String) (opts : SearchOptions) :
    List TreeItem → Int → List FileSearchResultModel
  | [], _ => []
  | item :: rest, count =>
    if treeItemMatches query opts item then
      let fsr := localResult provider c opts query item
      if opts.max_results ≤ count + 1 then [fsr]
      else fsr :: searchLoop provider c query opts rest (count + 1)
    else searchLoop provider c query opts rest count

/-- The sort key `x.score or 0` of github.py line 202. -/
def scoreKey (r : FileSearchResultModel) : Nat := r.score.getD 0

/-- Stable descending insertion by `scoreKey`: a later element is placed
after every earlier element whose key is at least as large, mirroring the
stability of Python's `list.sort`. -/
def insertByScoreDesc (x : FileSearchResultModel) :
    List FileSearchResultModel → List FileSearchResultModel
  | [] => [x]
  | y :: ys =>
    if scoreKey x < scoreKey y then y :: insertByScoreDesc x ys
    else x :: y :: ys

/-- `results.sort(key=lambda x: x.score or 0, reverse=True)` (github.py
line 202): a stable descending sort by `scoreKey`. -/
def sortByScoreDesc : List FileSearchResultModel → List FileSearchResultModel
  | [] => []
  | x :: xs => insertByScoreDesc x (sortByScoreDesc xs)

/-- Embedding of `GitHubClient.search_files` (github.py lines 125-203).
`searchItems` is the `items` array the provider returns for the
content-search request, and `tree` the `tree` array it returns for the
recursive tree listing at the default ref; `provider` serves the per-item
content fetches. -/
def search_files (provider : GHRequest → Option GitHubFileContentModel)
    (c : GitHubClient) (searchItems : List SearchCodeItem)
    (tree : List TreeItem) (query : String) (opts : SearchOptions) :
    List FileSearchResultModel :=
  if opts.search_in_content then
    searchItems.map (contentResult provider c opts)
  else
    sortByScoreDesc (searchLoop provider c query opts tree 0)

/-! ### `get_directory_structure` (github.py lines 205-250) -/

/-- One entry of a contents-API response as consumed by
`get_directory_structure` (github.py lines 219-232). -/
structure ContentsItem where
  name : String
  type : String
  path : String
  size : Option Int := none
  sha : Option String := none
  url : Option String := none
deriving Repr, DecidableEq

/-- A contents-API response body: a list for a directory, a single object for
a file (github.py line 216). -/
inductive ContentsResp
  | listing (items : List ContentsItem)
  | single (item : ContentsItem)
deriving Repr, DecidableEq

/-- The field mapping of github.py lines 219-232 and 236-248, shared by the
directory and single-file branches. -/
def contentsEntry (item : ContentsItem) : FileSearchResultModel :=
  { path := item.path, name := item.name,
    type := if item.type == "file" then "file" else "directory",
    size := item.size, sha := item.sha, url := item.url }

/-- The request issued by `get_directory_structure` (github.py lines
209-213): the contents endpoint with the `ref` query parameter. -/
def dirRequest (c : GitHubClient) (path : String) (ref : Option String) :
    GHRequest :=
  { endpoint := "/repos/" ++ c.owner ++ "/" ++ c.repo ++ "/contents/" ++ path,
    params := [("ref", ref.getD c.default_ref)] }

/-- Embedding of `GitHubClient.get_directory_structure` (github.py lines
205-250): `none` from the provider models the not-found exception caught at
line 214. -/
def get_directory_structure (provider : GHRequest → Option ContentsResp)
    (c : GitHubClient) (path : String := "") (ref : Option String := none) :
    Except ReadFileError (List FileSearchResultModel) :=
  match provider (dirRequest c path ref) with
  | none => .error .NotFound
  | some (.listing items) => .ok (items.map contentsEntry)
  | some (.single item) => .ok [contentsEntry item]

/-! ### `CodeSourceService.new` (get_code_source.py lines 12-31) -/

/-- The outcome of `urllib.parse.urlparse` restricted to the two components
the service reads (`netloc` and `path`). -/
structure ParsedUrl where
  netloc : String
  path : String
deriving Repr, DecidableEq

/-- The configuration errors raised by `CodeSourceService.new`
(get_code_source.py lines 18, 21, 30), raised before any `GitHubClient` is
constructed. -/
inductive ConfigError
  | InvalidGithubUrl
  | InvalidGithubPath
  | UnknownSource
deriving Repr, DecidableEq

/-- Embedding of `CodeSourceService.new` (get_code_source.py lines 12-31):
owner and repository are the first two segments of the parsed URL path after
stripping slashes; a wrong host or fewer than two segments is rejected.  The
success value is the constructed `GitHubClient`. -/
def codeSourceNew (source : String) (parsed : ParsedUrl)
    (token : Option String) (ref : String := "main") :
    Except ConfigError GitHubClient :=
  if source = "github" then
    if parsed.netloc ≠ "github.com" then .error .InvalidGithubUrl
    else
      let parts := (splitCharList '/' (stripSlashes parsed.path).data).map String.mk
      if parts.length < 2 then .error .InvalidGithubPath
      else .ok { owner := parts.getD 0 "", repo := parts.getD 1 "",
                 token := token, default_ref := ref }
  else .error .UnknownSource

/-! ### The exploration-state data model (agent/graph/types.py) -/

/-- `FileAnalysis` (types.py lines 10-12). -/
structure FileAnalysis where
  understanding : String
deriving Repr, DecidableEq

/-- `CurrentFile` (types.py lines 14-17): the path under analysis (the
source names the field `name`) plus an optional analysis. -/
structure CurrentFile where
  name : String
  analysis : Option FileAnalysis := none
deriving Repr, DecidableEq

/-- The `FileStatus` literal (types.py line 57). -/
inductive FileStatus
  | pending
  | ignored
  | done
deriving Repr, DecidableEq

/-- `FileItem` (types.py lines 59-64), the spec's TrackedFile; `type` holds
the literal `"file"` or `"directory"`. -/
structure FileItem where
  path : String
  status : FileStatus
  type : String
  understanding : Option String := none
deriving Repr, DecidableEq

/-- `HistoryEntry` (types.py lines 66-71); `feedback_action` holds one of
the literals `"accept"`, `"reject"`, `"refine"`, `"finish"`. -/
structure HistoryEntry where
  filePath : String
  feedback_action : String
  timestamp : Int
  reason : Option String := none
deriving Repr, DecidableEq

/-- The four feedback dataclasses and their union `UserFeedback` (types.py
lines 27-54), embedded as a closed sum: `accept` carries an optional reason,
`reject` a required reason, `refine` a required new understanding plus an
optional reason and an optional override next-file path, and `finish` no
payload. -/
inductive UserFeedback
  | accept (reason : Option String)
  | reject (reason : String)
  | refine (userUnderstanding : String) (reason : Option String)
      (nextFile : Option String)
  | finish
deriving Repr, DecidableEq

/-- The `action` literal tag carried by each feedback dataclass (types.py
lines 29, 34, 39, 46). -/
def UserFeedback.action : UserFeedback → String
  | .accept _ => "accept"
  | .reject _ => "reject"
  | .refine _ _ _ => "refine"
  | .finish => "finish"

/-! ### The exploration state machine (spec §4.2)

`agent/graph/types.py` defines the session data (`State`: files, history,
current file, completion flag), but the state-machine operations themselves
are not implemented under `src/`; `apply_feedback` below is modelled from
the spec. -/

/-- The session phases of spec §4.2. -/
inductive SessionPhase
  | awaiting_next_file
  | analyzing
  | awaiting_feedback
  | blocked_need_info
  | finished
deriving Repr, DecidableEq

/-- The session over the `State` fields of types.py (lines 85-103) that
feedback application touches, with the §4.2 phase made explicit. -/
structure Session where
  files : List FileItem
  history : List HistoryEntry
  current_file : Option CurrentFile := none
  phase : SessionPhase
  completed : Bool := false
deriving Repr, DecidableEq

/-- The state-machine errors of spec §7 that feedback application raises. -/
inductive SessionError
  | InvalidTransition
  | SessionClosed
deriving Repr, DecidableEq

/-- Modelled from the spec: `apply_feedback` (spec §4.2), which is absent
from `src/` (agent/graph/types.py declares only the data types).  Valid only
in `awaiting_feedback` with a current file set; Accept marks the tracked
file for the current path `done`, Reject marks it `ignored`, Refine keeps it
pending, Finish completes the session; each variant appends exactly one
history entry, clears the current file (except Finish, which terminates),
and transitions as §4.2 prescribes.  Refine's override next-file path is
handed back to the proposal step and does not change the session here. -/
def apply_feedback (s : Session) (fb : UserFeedback) (now : Int) :
    Except SessionError Session :=
  if s.completed then .error .SessionClosed
  else if s.phase ≠ .awaiting_feedback then .error .InvalidTransition
  else
    match s.current_file with
    | none => .error .InvalidTransition
    | some cf =>
      match fb with
      | .accept reason =>
        let entry : HistoryEntry :=
          { filePath := cf.name, feedback_action := "accept",
            timestamp := now, reason := reason }
        .ok { s with
              files := s.files.map fun f =>
                if f.path = cf.name then { f with status := .done } else f,
              history := s.history ++ [entry],
              current_file := none,
              phase := .awaiting_next_file }
      | .reject reason =>
        let entry : HistoryEntry :=
          { filePath := cf.name, feedback_action := "reject",
            timestamp := now, reason := some reason }
        .ok { s with
              files := s.files.map fun f =>
                if f.path = cf.name then { f with status := .ignored } else f,
              history := s.history ++ [entry],
              current_file := none,
              phase := .awaiting_next_file }
      | .refine u reason _nextFile =>
        let entry : HistoryEntry :=
          { filePath := cf.name, feedback_action := "refine",
            timestamp := now, reason := reason }
        .ok { s with
              files := s.files.map fun f =>
                if f.path = cf.name then { f with understanding := some u }
                else f,
              history := s.history ++ [entry],
              current_file := none,
              phase := .awaiting_next_file }
      | .finish =>
        let entry : HistoryEntry :=
          { filePath := cf.name, feedback_action := "finish",
            timestamp := now, reason := none }
        .ok { s with
              history := s.history ++ [entry],
              completed := true,
              phase := .finished }

/-! ### Spec-side restatement of the scoring formula (spec §4.1)

`scoreSpec` follows the spec's words — base relevance, depth bonus
`max(0, 20 − slash_count(path))` written over the integers, and a flat `+5`
for any of the common extensions — to be compared with the source's
`calculate_score`. -/

/-- The spec's scoring formula (§4.1), written from the spec's words. -/
def scoreSpec (path filename query : String) : Nat :=
  (if strLower filename = strLower query then 100
   else if strStartsWith (strLower filename) (strLower query) then 80
   else if strContains (strLower filename) (strLower query) then 60
   else if strContains (strLower path) (strLower query) then 40
   else 0)
  + ((20 : Int) - (slashCount path : Int)).toNat
  + (if commonExtensions.any (fun e => strEndsWith filename e) then 5 else 0)

/-! ### Helper lemmas -/

theorem extensionBonus_eq (filename : String) (exts : List String) :
    extensionBonus filename exts
      = if exts.any (fun e => strEndsWith filename e) then 5 else 0 := by
  induction exts with
  | nil => simp [extensionBonus]
  | cons e rest ih =>
    simp only [extensionBonus, List.any_cons]
    by_cases h : strEndsWith filename e = true
    · simp [h]
    · simp [h, ih]

theorem extensionBonus_le (filename : String) (exts : List String) :
    extensionBonus filename exts ≤ 5 := by
  rw [extensionBonus_eq]
  split <;> omega

theorem strContains_self (s : String) : strContains s s = true := by
  simp only [strContains, decide_eq_true_eq]
  exact List.infix_refl s.data

theorem strContains_of_startsWith {s p : String}
    (h : strStartsWith s p = true) : strContains s p = true := by
  simp only [strStartsWith, decide_eq_true_eq] at h
  obtain ⟨t, ht⟩ := h
  simp only [strContains, decide_eq_true_eq]
  exact ⟨[], t, by simpa using ht⟩

theorem mem_insertByScoreDesc (x z : FileSearchResultModel)
    (l : List FileSearchResultModel) :
    z ∈ insertByScoreDesc x l ↔ z = x ∨ z ∈ l := by
  induction l with
  | nil => simp [insertByScoreDesc]
  | cons y ys ih =>
    simp only [insertByScoreDesc]
    split
    · simp only [List.mem_cons, ih]
      try tauto
    · simp only [List.mem_cons]
      try tauto

theorem length_insertByScoreDesc (x : FileSearchResultModel)
    (l : List FileSearchResultModel) :
    (insertByScoreDesc x l).length = l.length + 1 := by
  induction l with
  | nil => simp [insertByScoreDesc]
  | cons y ys ih =>
    simp only [insertByScoreDesc]
    split <;> simp [ih]

theorem perm_insertByScoreDesc (x : FileSearchResultModel)
    (l : List FileSearchResultModel) :
    List.Perm (insertByScoreDesc x l) (x :: l) := by
  induction l with
  | nil => simp [insertByScoreDesc]
  | cons y ys ih =>
    simp only [insertByScoreDesc]
    split
    · exact ((ih.cons y).trans (List.Perm.swap x y ys))
    · exact List.Perm.refl _

theorem length_sortByScoreDesc (l : List FileSearchResultModel) :
    (sortByScoreDesc l).length = l.length := by
  induction l with
  | nil => rfl
  | cons x xs ih => simp [sortByScoreDesc, length_insertByScoreDesc, ih]

theorem perm_sortByScoreDesc (l : List FileSearchResultModel) :
    List.Perm (sortByScoreDesc l) l := by
  induction l with
  | nil => simp [sortByScoreDesc]
  | cons x xs ih =>
    exact (perm_insertByScoreDesc x (sortByScoreDesc xs)).trans (ih.cons x)

/-- Descending order by the sort key of github.py line 202. -/
def SortedByScoreDesc (l : List FileSearchResultModel) : Prop :=
  List.Pairwise (fun a b => scoreKey b ≤ scoreKey a) l

theorem sortedDesc_insertByScoreDesc (x : FileSearchResultModel)
    (l : List FileSearchResultModel) (h : SortedByScoreDesc l) :
    SortedByScoreDesc (insertByScoreDesc x l) := by
  induction l with
  | nil => simp [insertByScoreDesc, SortedByScoreDesc]
  | cons y ys ih =>
    simp only [SortedByScoreDesc, List.pairwise_cons] at h
    simp only [insertByScoreDesc]
    split
    · rename_i hlt
      have h' := ih h.2
      simp only [SortedByScoreDesc, List.pairwise_cons] at h' ⊢
      refine ⟨?_, h'⟩
      intro z hz
      rcases (mem_insertByScoreDesc x z ys).mp hz with rfl | hz
      · omega
      · exact h.1 z hz
    · rename_i hge
      simp only [SortedByScoreDesc, List.pairwise_cons]
      refine ⟨?_, h.1, h.2⟩
      intro z hz
      rcases List.mem_cons.mp hz with rfl | hz
      · omega
      · have := h.1 z hz
        omega

theorem sortedDesc_sortByScoreDesc (l : List FileSearchResultModel) :
    SortedByScoreDesc (sortByScoreDesc l) := by
  induction l with
  | nil => simp [sortByScoreDesc, SortedByScoreDesc]
  | cons x xs ih => exact sortedDesc_insertByScoreDesc x _ ih

theorem filter_insertByScoreDesc (x : FileSearchResultModel)
    (l : List FileSearchResultModel) (k : Nat) :
    (insertByScoreDesc x l).filter (fun r => scoreKey r == k)
      = if scoreKey x == k then
          x :: l.filter (fun r => scoreKey r == k)
        else l.filter (fun r => scoreKey r == k) := by
  induction l with
  | nil =>
    by_cases hx : (scoreKey x == k) = true
    · simp [insertByScoreDesc, List.filter, hx]
    · simp only [Bool.not_eq_true] at hx
      simp [insertByScoreDesc, List.filter, hx]
  | cons y ys ih =>
    simp only [insertByScoreDesc]
    split
    · rename_i hlt
      rw [List.filter_cons, List.filter_cons, ih]
      by_cases hx : (scoreKey x == k) = true
      · have hyk : (scoreKey y == k) = false := by
          simp only [beq_iff_eq] at hx
          simp only [beq_eq_false_iff_ne, ne_eq]
          omega
        simp [hx, hyk]
      · simp only [Bool.not_eq_true] at hx
        simp [hx]
    · rw [List.filter_cons, List.filter_cons]

theorem filter_sortByScoreDesc (l : List FileSearchResultModel) (k : Nat) :
    (sortByScoreDesc l).filter (fun r => scoreKey r == k)
      = l.filter (fun r => scoreKey r == k) := by
  induction l with
  | nil => rfl
  | cons x xs ih =>
    simp only [sortByScoreDesc]
    rw [filter_insertByScoreDesc, ih, List.filter_cons]

theorem searchLoop_eq_take (provider : GHRequest → Option GitHubFileContentModel)
    (c : GitHubClient) (query : String) (opts : SearchOptions) :
    ∀ (tree : List TreeItem) (count : Int), count < opts.max_results →
      searchLoop provider c query opts tree count
        = ((tree.filter (treeItemMatches query opts)).take
            (opts.max_results - count).toNat).map
            (localResult provider c opts query) := by
  intro tree
  induction tree with
  | nil => intro count h; simp [searchLoop]
  | cons item rest ih =>
    intro count h
    rw [searchLoop, List.filter_cons]
    by_cases hm : treeItemMatches query opts item = true
    · rw [if_pos hm, if_pos hm]
      by_cases hb : opts.max_results ≤ count + 1
      · rw [if_pos hb]
        have h1 : (opts.max_results - count).toNat = 1 := by omega
        rw [h1, List.take_succ_cons, List.take_zero, List.map_cons, List.map_nil]
      · rw [if_neg hb]
        have h1 : (opts.max_results - count).toNat
            = (opts.max_results - (count + 1)).toNat + 1 := by omega
        rw [h1, List.take_succ_cons, List.map_cons, ih (count + 1) (by omega)]
    · rw [if_neg hm, if_neg hm, ih count h]

/-- Forget the `content` field of a search result; proof apparatus for
comparing search outputs across providers. -/
def eraseContent (r : FileSearchResultModel) : FileSearchResultModel :=
  { r with content := none }

theorem scoreKey_eraseContent (r : FileSearchResultModel) :
    scoreKey (eraseContent r) = scoreKey r := rfl

theorem eraseContent_localResult
    (provider provider' : GHRequest → Option GitHubFileContentModel)
    (c : GitHubClient) (opts : SearchOptions) (query : String)
    (item : TreeItem) :
    eraseContent (localResult provider c opts query item)
      = eraseContent (localResult provider' c opts query item) := rfl

theorem map_eraseContent_insertByScoreDesc (x : FileSearchResultModel)
    (l : List FileSearchResultModel) :
    (insertByScoreDesc x l).map eraseContent
      = insertByScoreDesc (eraseContent x) (l.map eraseContent) := by
  induction l with
  | nil => rfl
  | cons y ys ih =>
    simp only [insertByScoreDesc, scoreKey_eraseContent, List.map_cons]
    split
    · rw [List.map_cons, ih]
    · rfl

theorem map_eraseContent_sortByScoreDesc (l : List FileSearchResultModel) :
    (sortByScoreDesc l).map eraseContent = sortByScoreDesc (l.map eraseContent) := by
  induction l with
  | nil => rfl
  | cons x xs ih =>
    simp only [sortByScoreDesc, List.map_cons]
    rw [map_eraseContent_insertByScoreDesc, ih]

theorem map_eraseContent_searchLoop
    (provider provider' : GHRequest → Option GitHubFileContentModel)
    (c : GitHubClient) (query : String) (opts : SearchOptions) :
    ∀ (tree : List TreeItem) (count : Int),
      (searchLoop provider c query opts tree count).map eraseContent
        = (searchLoop provider' c query opts tree count).map eraseContent := by
  intro tree
  induction tree with
  | nil => intro count; rfl
  | cons item rest ih =>
    intro count
    rw [searchLoop, searchLoop]
    by_cases hm : treeItemMatches query opts item = true
    · rw [if_pos hm, if_pos hm]
      by_cases hb : opts.max_results ≤ count + 1
      · rw [if_pos hb, if_pos hb, List.map_cons, List.map_cons]
        rw [show eraseContent (localResult provider c opts query item)
              = eraseContent (localResult provider' c opts query item) from rfl]
      · rw [if_neg hb, if_neg hb, List.map_cons, List.map_cons, ih (count + 1)]
        rw [show eraseContent (localResult provider c opts query item)
              = eraseContent (localResult provider' c opts query item) from rfl]
    · rw [if_neg hm, if_neg hm, ih count]

theorem mem_searchLoop (provider : GHRequest → Option GitHubFileContentModel)
    (c : GitHubClient) (query : String) (opts : SearchOptions) :
    ∀ (tree : List TreeItem) (count : Int) (r : FileSearchResultModel),
      r ∈ searchLoop provider c query opts tree count →
        ∃ item ∈ tree, r = localResult provider c opts query item := by
  intro tree
  induction tree with
  | nil => intro count r hr; simp [searchLoop] at hr
  | cons item rest ih =>
    intro count r hr
    rw [searchLoop] at hr
    by_cases hm : treeItemMatches query opts item = true
    · rw [if_pos hm] at hr
      by_cases hb : opts.max_results ≤ count + 1
      · rw [if_pos hb] at hr
        rcases List.mem_singleton.mp hr with rfl
        exact ⟨item, List.mem_cons_self item rest, rfl⟩
      · rw [if_neg hb] at hr
        rcases List.mem_cons.mp hr with rfl | hr
        · exact ⟨item, List.mem_cons_self item rest, rfl⟩
        · obtain ⟨it, hit, hre⟩ := ih (count + 1) r hr
          exact ⟨it, List.mem_cons_of_mem item hit, hre⟩
    · rw [if_neg hm] at hr
      obtain ⟨it, hit, hre⟩ := ih count r hr
      exact ⟨it, List.mem_cons_of_mem item hit, hre⟩

/-! ### Sample data for witnesses -/

/-- A sample parsed file response (`hi` in base64). -/
def sampleFile : GitHubFileContentModel :=
  { type := "file", encoding := "base64", content := "aGk=" }

/-- A sample client. -/
def sampleClient : GitHubClient := { owner := "o", repo := "r" }

/-- A sample recursive tree listing. -/
def sampleTree : List TreeItem :=
  [ { type := "blob", path := "a/main.py" },
    { type := "tree", path := "a" },
    { type := "blob", path := "b/main.md" },
    { type := "blob", path := "nomatch.txt" },
    { type := "blob", path := "main.py" } ]

/-- A sample session awaiting feedback on `src/main.go`. -/
def sampleSession : Session :=
  { files := [{ path := "src/main.go", status := .pending, type := "file" }],
    history := [],
    current_file := some { name := "src/main.go" },
    phase := .awaiting_feedback,
    completed := false }

/-! ### Claim theorems -/

/-- C1: for every path and optional revision, `read_file` fails with
`NotFound` when the path does not resolve, with `NotAFile` when the resolved
entry is not a file, with `UnsupportedEncoding` when the provider reports
any encoding other than base64, and on success returns exactly the decoded
base64 content — so success forces the encoding to be base64 and no other
encoding is ever accepted; for an unresolved path `get_directory_structure`
fails with `NotFound` as well. -/
theorem read_file_error_taxonomy
    (provider : GHRequest → Option GitHubFileContentModel)
    (dprovider : GHRequest → Option ContentsResp)
    (c : GitHubClient) (path : String) (ref : Option String) :
    (provider (readFileRequest c path) = none →
      read_file provider c path ref = .error .NotFound)
    ∧ (∀ gh, provider (readFileRequest c path) = some gh →
        (gh.type ≠ "file" →
          read_file provider c path ref = .error (.NotAFile gh.type))
        ∧ (gh.type = "file" → gh.encoding ≠ "base64" →
          read_file provider c path ref = .error (.UnsupportedEncoding gh.encoding))
        ∧ (gh.type = "file" → gh.encoding = "base64" →
          ∀ bytes, b64decode gh.content = some bytes →
            read_file provider c path ref = .ok bytes))
    ∧ (∀ bytes, read_file provider c path ref = .ok bytes →
        ∃ gh, provider (readFileRequest c path) = some gh ∧ gh.type = "file"
          ∧ gh.encoding = "base64" ∧ b64decode gh.content = some bytes)
    ∧ (dprovider (dirRequest c path ref) = none →
        get_directory_structure dprovider c path ref = .error .NotFound) := by
  refine ⟨?_, ?_, ?_, ?_⟩
  · intro h
    simp [read_file, h]
  · intro gh hgh
    refine ⟨?_, ?_, ?_⟩
    · intro ht
      simp [read_file, hgh, ht]
    · intro ht he
      simp [read_file, hgh, ht, he]
    · intro ht he bytes hb
      simp [read_file, hgh, ht, he, hb]
  · intro bytes h
    rcases hp : provider (readFileRequest c path) with _ | gh
    · simp [read_file, hp] at h
    · by_cases ht : gh.type = "file"
      · by_cases he : gh.encoding = "base64"
        · rcases hb : b64decode gh.content with _ | bs
          · simp [read_file, hp, ht, he, hb] at h
          · simp only [read_file, hp, ht, he, hb, ne_eq, not_true_eq_false,
              ite_false, if_false, Except.ok.injEq] at h
            exact ⟨gh, rfl, ht, he, by rw [hb, h]⟩
        · simp [read_file, hp, ht, he] at h
      · simp [read_file, hp, ht] at h
  · intro h
    simp [get_directory_structure, h]

/-- Witness for C1 at concrete inputs: an unresolved path yields `NotFound`,
and a base64 file response decodes to its bytes. -/
theorem read_file_error_taxonomy_witness :
    read_file (fun _ => none) sampleClient "a.py" none = .error .NotFound
    ∧ read_file (fun _ => some sampleFile) sampleClient "a.py" none
        = .ok [104, 105] := by
  constructor
  · exact (read_file_error_taxonomy (fun _ => none) (fun _ => none)
      sampleClient "a.py" none).1 rfl
  · exact ((read_file_error_taxonomy (fun _ => some sampleFile) (fun _ => none)
      sampleClient "a.py" none).2.1 sampleFile rfl).2.2 rfl rfl [104, 105]
      (by decide)

/-- C5: constructing search options rejects (with `InvalidOptions`) exactly
the configurations whose extension lacks the leading dot or whose
`max_results` is below one; every other configuration is accepted with its
fields intact. -/
theorem mkSearchOptions_validation (extension : Option String)
    (max_results : Int) (include_content search_in_content : Bool) :
    (mkSearchOptions extension max_results include_content search_in_content
        = .ok { extension := extension, max_results := max_results,
                include_content := include_content,
                search_in_content := search_in_content }
      ↔ ((match extension with
          | some v => strStartsWith v "."
          | none => true) = true ∧ 1 ≤ max_results))
    ∧ (mkSearchOptions extension max_results include_content search_in_content
        = .error .InvalidOptions
      ↔ ((match extension with
          | some v => strStartsWith v "."
          | none => true) = false ∨ max_results < 1)) := by
  rcases extension with _ | v
  · rcases hm : decide (max_results < 1) with _ | _
    · have hm' : ¬ max_results < 1 := by simpa using hm
      constructor
      · simp [mkSearchOptions, hm']
        omega
      · simp [mkSearchOptions, hm']
    · have hm' : max_results < 1 := by simpa using hm
      constructor
      · simp [mkSearchOptions, hm']
      · simp [mkSearchOptions, hm']
  · rcases hd : strStartsWith v "." with _ | _
    · constructor
      · simp [mkSearchOptions, hd]
      · simp [mkSearchOptions, hd]
    · rcases hm : decide (max_results < 1) with _ | _
      · have hm' : ¬ max_results < 1 := by simpa using hm
        constructor
        · simp [mkSearchOptions, hd, hm']
          omega
        · simp [mkSearchOptions, hd, hm']
      · have hm' : max_results < 1 := by simpa using hm
        constructor
        · simp [mkSearchOptions, hd, hm']
        · simp [mkSearchOptions, hd, hm']

/-- C7: for every resolving path, `get_directory_structure` returns the
directory's immediate children — each mapped to an entry tagged `file` or
`directory` carrying name, path, size, hash and URL — or a one-element
sequence describing the entry when the path resolves to a single file; an
unresolved path fails with `NotFound`. -/
theorem get_directory_structure_spec
    (provider : GHRequest → Option ContentsResp) (c : GitHubClient)
    (path : String) (ref : Option String) :
    (provider (dirRequest c path ref) = none →
      get_directory_structure provider c path ref = .error .NotFound)
    ∧ (∀ items, provider (dirRequest c path ref) = some (.listing items) →
        get_directory_structure provider c path ref
          = .ok (items.map contentsEntry))
    ∧ (∀ item, provider (dirRequest c path ref) = some (.single item) →
        get_directory_structure provider c path ref = .ok [contentsEntry item])
    ∧ (∀ item : ContentsItem, contentsEntry item
        = { path := item.path, name := item.name,
            type := if item.type == "file" then "file" else "directory",
            size := item.size, sha := item.sha, url := item.url })
    ∧ (∀ item : ContentsItem,
        (contentsEntry item).type = "file" ∨ (contentsEntry item).type = "directory") := by
  refine ⟨?_, ?_, ?_, ?_, ?_⟩
  · intro h
    simp [get_directory_structure, h]
  · intro items h
    simp [get_directory_structure, h]
  · intro item h
    simp [get_directory_structure, h]
  · intro item
    rfl
  · intro item
    by_cases h : (item.type == "file") = true
    · left
      simp [contentsEntry, h]
    · right
      simp only [Bool.not_eq_true] at h
      simp [contentsEntry, h]

/-- A sample file entry of a contents-API response. -/
def sampleEntry : ContentsItem := { name := "a.py", type := "file", path := "d/a.py" }

/-- A sample subdirectory entry of a contents-API response. -/
def sampleSubdir : ContentsItem := { name := "sub", type := "dir", path := "d/sub" }

/-- A provider answering every contents request with a directory listing. -/
def sampleDirProvider : GHRequest → Option ContentsResp :=
  fun _ => some (.listing [sampleEntry, sampleSubdir])

/-- A provider answering every contents request with a single file. -/
def sampleSingleProvider : GHRequest → Option ContentsResp :=
  fun _ => some (.single sampleEntry)

/-- Witness for C7 at concrete inputs: a directory listing maps to its
children, a single file to a one-element sequence, and a missing path to
`NotFound`. -/
theorem get_directory_structure_spec_witness :
    get_directory_structure sampleDirProvider sampleClient "d" none
      = .ok [contentsEntry sampleEntry, contentsEntry sampleSubdir]
    ∧ get_directory_structure sampleSingleProvider sampleClient "d/a.py" none
      = .ok [contentsEntry sampleEntry]
    ∧ get_directory_structure (fun _ => none) sampleClient "nope" none
      = .error .NotFound := by
  refine ⟨?_, ?_, ?_⟩
  · exact (get_directory_structure_spec sampleDirProvider sampleClient
      "d" none).2.1 [sampleEntry, sampleSubdir] rfl
  · exact (get_directory_structure_spec sampleSingleProvider sampleClient
      "d/a.py" none).2.2.1 sampleEntry rfl
  · exact (get_directory_structure_spec (fun _ => none) sampleClient
      "nope" none).1 rfl

/-- C8: constructing a github code source derives owner and repository from
the first two path segments after the host; a host other than `github.com`,
or a path with fewer than two segments, is rejected as a configuration
error at construction, so no `GitHubClient` is ever built from such a URL. -/
theorem codeSourceNew_config_validation (parsed : ParsedUrl)
    (token : Option String) (ref : String) :
    (parsed.netloc ≠ "github.com" →
      codeSourceNew "github" parsed token ref = .error .InvalidGithubUrl)
    ∧ (parsed.netloc = "github.com" →
        (splitCharList '/' (stripSlashes parsed.path).data).length < 2 →
        codeSourceNew "github" parsed token ref = .error .InvalidGithubPath)
    ∧ (∀ (owner repo : List Char) (restParts : List (List Char)),
        parsed.netloc = "github.com" →
        splitCharList '/' (stripSlashes parsed.path).data
          = owner :: repo :: restParts →
        codeSourceNew "github" parsed token ref
          = .ok { owner := String.mk owner, repo := String.mk repo,
                  token := token, default_ref := ref })
    ∧ (∀ client, codeSourceNew "github" parsed token ref = .ok client →
        parsed.netloc = "github.com"
        ∧ 2 ≤ (splitCharList '/' (stripSlashes parsed.path).data).length) := by
  refine ⟨?_, ?_, ?_, ?_⟩
  · intro h
    simp [codeSourceNew, h]
  · intro h1 h2
    simp only [codeSourceNew, h1, ne_eq, not_true_eq_false, if_false,
      ite_false, List.length_map, if_pos h2]
    simp [h2]
  · intro owner repo restParts h1 h2
    simp [codeSourceNew, h1, h2]
  · intro client h
    by_cases h1 : parsed.netloc = "github.com"
    · refine ⟨h1, ?_⟩
      by_cases h2 : (splitCharList '/' (stripSlashes parsed.path).data).length < 2
      · simp [codeSourceNew, h1, h2] at h
      · omega
    · simp [codeSourceNew, h1] at h

/-- A well-formed github URL after parsing. -/
def sampleUrlOk : ParsedUrl :=
  { netloc := "github.com", path := "/hotttao/lang_code_reader" }

/-- A parsed URL with a foreign host. -/
def sampleUrlBadHost : ParsedUrl := { netloc := "gitlab.com", path := "/a/b" }

/-- A parsed github URL whose path has a single segment. -/
def sampleUrlShort : ParsedUrl := { netloc := "github.com", path := "/onlyowner" }

/-- Witness for C8 at concrete inputs: a well-formed github URL yields the
client for its first two segments; a foreign host and a one-segment path
are rejected. -/
theorem codeSourceNew_config_validation_witness :
    codeSourceNew "github" sampleUrlOk none "main"
      = .ok { owner := "hotttao", repo := "lang_code_reader", token := none,
              default_ref := "main" }
    ∧ codeSourceNew "github" sampleUrlBadHost none "main"
        = .error .InvalidGithubUrl
    ∧ codeSourceNew "github" sampleUrlShort none "main"
        = .error .InvalidGithubPath := by
  refine ⟨?_, ?_, ?_⟩
  · exact (codeSourceNew_config_validation sampleUrlOk none "main").2.2.1
      "hotttao".data "lang_code_reader".data [] rfl (by decide)
  · exact (codeSourceNew_config_validation sampleUrlBadHost none "main").1
      (by decide)
  · exact (codeSourceNew_config_validation sampleUrlShort none "main").2.1
      rfl (by decide)

/-- C9: `UserFeedback` is a closed tagged union of exactly four variants —
Accept with an optional note, Reject with a required reason, Refine with a
required new understanding plus optional reason and optional override
next-file path, Finish with no payload — each variant determined by its
distinct `action` tag and by its payload, and every value is one of the
four shapes. -/
theorem userFeedback_closed_union :
    (∀ f : UserFeedback, (∃ r, f = .accept r) ∨ (∃ r, f = .reject r)
      ∨ (∃ u r n, f = .refine u r n) ∨ f = .finish)
    ∧ (∀ r r' : Option String,
        UserFeedback.accept r = UserFeedback.accept r' ↔ r = r')
    ∧ (∀ r r' : String,
        UserFeedback.reject r = UserFeedback.reject r' ↔ r = r')
    ∧ (∀ u u' r r' n n',
        UserFeedback.refine u r n = UserFeedback.refine u' r' n'
          ↔ u = u' ∧ r = r' ∧ n = n')
    ∧ (∀ r, (UserFeedback.accept r).action = "accept")
    ∧ (∀ r, (UserFeedback.reject r).action = "reject")
    ∧ (∀ u r n, (UserFeedback.refine u r n).action = "refine")
    ∧ UserFeedback.finish.action = "finish"
    ∧ List.Nodup ["accept", "reject", "refine", "finish"] := by
  refine ⟨?_, ?_, ?_, ?_, ?_, ?_, ?_, rfl, by decide⟩
  · intro f
    cases f with
    | accept r => exact Or.inl ⟨r, rfl⟩
    | reject r => exact Or.inr (Or.inl ⟨r, rfl⟩)
    | refine u r n => exact Or.inr (Or.inr (Or.inl ⟨u, r, n, rfl⟩))
    | finish => exact Or.inr (Or.inr (Or.inr rfl))
  · intro r r'
    constructor
    · intro h
      injection h
    · intro h
      rw [h]
  · intro r r'
    constructor
    · intro h
      injection h
    · intro h
      rw [h]
  · intro u u' r r' n n'
    constructor
    · intro h
      injection h with h1 h2 h3
      exact ⟨h1, h2, h3⟩
    · rintro ⟨rfl, rfl, rfl⟩
      rfl
  · intro r
    rfl
  · intro r
    rfl
  · intro u r n
    rfl

/-- C10: `read_file` accepts and defaults the `ref` argument but never puts
it into the content-retrieval request: the request carries no parameters at
all, and the result is identical for any two values of `ref`. -/
theorem read_file_ignores_ref
    (provider : GHRequest → Option GitHubFileContentModel)
    (c : GitHubClient) (path : String) (ref1 ref2 : Option String) :
    read_file provider c path ref1 = read_file provider c path ref2
    ∧ (readFileRequest c path).params = [] :=
  ⟨rfl, rfl⟩

/-- C2: with `search_in_content` false and `max_results ≥ 1`, `search_files`
returns exactly the first `max_results` blob entries in tree order that pass
the extension filter and contain the query case-insensitively in path or
file name — only those entries are scored and returned (first-N-then-sort,
not global top-N) — sorted descending by score, and never more than
`max_results` items. -/
theorem search_files_local_firstN
    (provider : GHRequest → Option GitHubFileContentModel) (c : GitHubClient)
    (searchItems : List SearchCodeItem) (tree : List TreeItem)
    (query : String) (opts : SearchOptions)
    (hmax : 1 ≤ opts.max_results) (hmode : opts.search_in_content = false) :
    search_files provider c searchItems tree query opts
      = sortByScoreDesc (((tree.filter (treeItemMatches query opts)).take
          opts.max_results.toNat).map (localResult provider c opts query))
    ∧ List.Perm (search_files provider c searchItems tree query opts)
        (((tree.filter (treeItemMatches query opts)).take
          opts.max_results.toNat).map (localResult provider c opts query))
    ∧ (search_files provider c searchItems tree query opts).length
        ≤ opts.max_results.toNat
    ∧ SortedByScoreDesc (search_files provider c searchItems tree query opts) := by
  have h0 : search_files provider c searchItems tree query opts
      = sortByScoreDesc (searchLoop provider c query opts tree 0) := by
    simp [search_files, hmode]
  have h1 := searchLoop_eq_take provider c query opts tree 0 (by omega)
  have h2 : (opts.max_results - 0).toNat = opts.max_results.toNat := by omega
  rw [h2] at h1
  have heq : search_files provider c searchItems tree query opts
      = sortByScoreDesc (((tree.filter (treeItemMatches query opts)).take
          opts.max_results.toNat).map (localResult provider c opts query)) := by
    rw [h0, h1]
  refine ⟨heq, ?_, ?_, ?_⟩
  · rw [heq]
    exact perm_sortByScoreDesc _
  · rw [heq, length_sortByScoreDesc, List.length_map, List.length_take]
    exact Nat.min_le_left _ _
  · rw [h0]
    exact sortedDesc_sortByScoreDesc _

/-- The sample options of the C2 witness: local mode, two results. -/
def sampleOpts : SearchOptions := { max_results := 2 }

/-- Witness for C2: on the sample tree with `max_results = 2`, the local
search returns at most two items. -/
theorem search_files_local_firstN_witness :
    (search_files (fun _ => none) sampleClient [] sampleTree "main"
      sampleOpts).length ≤ sampleOpts.max_results.toNat :=
  (search_files_local_firstN (fun _ => none) sampleClient [] sampleTree
    "main" sampleOpts (by decide) rfl).2.2.1

/-- C3: the relevance score is the deterministic pure function of path,
file name and query given by the spec formula (100/80/60/40 base, depth
bonus `max(0, 20 − slash_count)`, flat `+5` for a common extension applied
at most once); scores are monotone — exact ≥ other bases, prefix ≥ non-exact,
name-substring ≥ non-exact-non-prefix, path-substring ≥ no-name-substring —
for equal depth and extension bonuses; and equal-score ties in the sorted
local-search output keep the pre-sort tree order. -/
theorem calculate_score_spec :
    (∀ path filename query,
      calculate_score path filename query = scoreSpec path filename query)
    ∧ (∀ filename exts, extensionBonus filename exts ≤ 5)
    ∧ (∀ p1 f1 p2 f2 q, slashCount p1 = slashCount p2 →
        extensionBonus f1 commonExtensions
          = extensionBonus f2 commonExtensions →
        ((strLower f1 = strLower q →
           calculate_score p2 f2 q ≤ calculate_score p1 f1 q)
         ∧ (strStartsWith (strLower f1) (strLower q) = true →
            strLower f2 ≠ strLower q →
            calculate_score p2 f2 q ≤ calculate_score p1 f1 q)
         ∧ (strContains (strLower f1) (strLower q) = true →
            strLower f2 ≠ strLower q →
            strStartsWith (strLower f2) (strLower q) = false →
            calculate_score p2 f2 q ≤ calculate_score p1 f1 q)
         ∧ (strContains (strLower p1) (strLower q) = true →
            strContains (strLower f2) (strLower q) = false →
            calculate_score p2 f2 q ≤ calculate_score p1 f1 q)))
    ∧ (∀ provider c searchItems tree query opts k,
        opts.search_in_content = false →
        (search_files provider c searchItems tree query opts).filter
            (fun r => scoreKey r == k)
          = (searchLoop provider c query opts tree 0).filter
            (fun r => scoreKey r == k)) := by
  refine ⟨?_, ?_, ?_, ?_⟩
  · intro path filename query
    have hmid : ((20 : Int) - (slashCount path : Int)).toNat
        = 20 - slashCount path := by omega
    simp only [calculate_score, scoreSpec, extensionBonus_eq, hmid]
  · intro filename exts
    exact extensionBonus_le filename exts
  · intro p1 f1 p2 f2 q hs he
    refine ⟨?_, ?_, ?_, ?_⟩
    · intro h1
      simp only [calculate_score]
      rw [if_pos h1]
      split_ifs <;> omega
    · intro h1 h2
      simp only [calculate_score]
      rw [if_neg h2]
      split_ifs <;> omega
    · intro h1 h2 h3
      simp only [calculate_score]
      rw [if_neg h2, if_neg (by simp [h3])]
      split_ifs <;> omega
    · intro h1 h4
      have hne : ¬ (strLower f2 = strLower q) := by
        intro hh
        rw [hh, strContains_self] at h4
        exact Bool.noConfusion h4
      have hnp : ¬ (strStartsWith (strLower f2) (strLower q) = true) := by
        intro hh
        rw [strContains_of_startsWith hh] at h4
        exact Bool.noConfusion h4
      simp only [calculate_score]
      rw [if_neg hne, if_neg hnp, if_neg (by simp [h4])]
      split_ifs <;> omega
  · intro provider c searchItems tree query opts k hmode
    simp only [search_files, hmode, Bool.false_eq_true, if_false, ite_false]
    exact filter_sortByScoreDesc _ k

/-- Witness for C3: an exact filename match dominates a mere name-substring
match at equal depth and extension bonuses. -/
theorem calculate_score_spec_witness :
    calculate_score "a/q.py" "q.py" "b.py" ≤ calculate_score "a/b.py" "b.py" "b.py" :=
  (calculate_score_spec.2.2.1 "a/b.py" "b.py" "a/q.py" "q.py" "b.py"
    (by decide) (by decide)).1 (by decide)

/-- C4: on a session awaiting feedback with a current file set, Accept marks
the tracked file whose path equals the current file's path as done (leaving
all other files unchanged), appends exactly one history entry with kind
`accept`, clears the current file, and returns the session to
`awaiting_next_file` without completing it. -/
theorem apply_feedback_accept (s : Session) (cf : CurrentFile)
    (reason : Option String) (now : Int)
    (h1 : s.phase = .awaiting_feedback) (h2 : s.completed = false)
    (h3 : s.current_file = some cf) :
    ∃ s', apply_feedback s (.accept reason) now = .ok s'
      ∧ s'.files = s.files.map (fun f =>
          if f.path = cf.name then { f with status := .done } else f)
      ∧ (∀ f ∈ s.files, f.path = cf.name →
          { f with status := FileStatus.done } ∈ s'.files)
      ∧ (∀ f ∈ s.files, f.path ≠ cf.name → f ∈ s'.files)
      ∧ s'.history = s.history ++ [⟨cf.name, "accept", now, reason⟩]
      ∧ s'.history.length = s.history.length + 1
      ∧ s'.current_file = none
      ∧ s'.phase = .awaiting_next_file
      ∧ s'.completed = false := by
  refine ⟨{ s with
      files := s.files.map (fun f =>
        if f.path = cf.name then { f with status := .done } else f),
      history := s.history ++ [⟨cf.name, "accept", now, reason⟩],
      current_file := none,
      phase := .awaiting_next_file }, ?_, rfl, ?_, ?_, rfl, by simp, rfl, rfl, h2⟩
  · simp [apply_feedback, h1, h2, h3]
  · intro f hf hfp
    refine List.mem_map.mpr ⟨f, hf, ?_⟩
    simp [hfp]
  · intro f hf hfp
    refine List.mem_map.mpr ⟨f, hf, ?_⟩
    simp [hfp]

/-- Witness for C4: accepting the sample session's current file yields a
session back in `awaiting_next_file` with the current file cleared and one
history entry. -/
theorem apply_feedback_accept_witness :
    (apply_feedback sampleSession (.accept none) 7).toOption.map Session.phase
        = some SessionPhase.awaiting_next_file
    ∧ (apply_feedback sampleSession (.accept none) 7).toOption.map
        Session.current_file = some none
    ∧ (apply_feedback sampleSession (.accept none) 7).toOption.map
        (fun s => s.history.length) = some 1 := by
  obtain ⟨s', happ, -, -, -, -, hlen, hcf, hph, -⟩ :=
    apply_feedback_accept sampleSession ⟨"src/main.go", none⟩ none 7 rfl rfl rfl
  rw [happ]
  refine ⟨?_, ?_, ?_⟩
  · simp [Except.toOption, hph]
  · simp [Except.toOption, hcf]
  · simp [Except.toOption, hlen, sampleSession]

/-- C6: when `include_content` is set, a failure of one result's content
fetch leaves only that result's content field absent and never fails the
search: the returned results (apart from their content fields) are the same
for any two providers, and each returned result's content is exactly the
optional outcome of fetching its own path. -/
theorem search_files_content_degrades
    (provider provider' : GHRequest → Option GitHubFileContentModel)
    (c : GitHubClient) (searchItems : List SearchCodeItem)
    (tree : List TreeItem) (query : String) (opts : SearchOptions)
    (hic : opts.include_content = true) :
    (search_files provider c searchItems tree query opts).map eraseContent
      = (search_files provider' c searchItems tree query opts).map eraseContent
    ∧ (∀ r ∈ search_files provider c searchItems tree query opts,
        r.content = (read_file provider c r.path (some c.default_ref)).toOption) := by
  constructor
  · by_cases hm : opts.search_in_content = true
    · simp only [search_files, hm, if_true, ite_true]
      rw [List.map_map, List.map_map]
      have hfun : (eraseContent ∘ contentResult provider c opts)
          = (eraseContent ∘ contentResult provider' c opts) := by
        funext item
        rfl
      rw [hfun]
    · have hm' : opts.search_in_content = false := by
        simp only [Bool.not_eq_true] at hm
        exact hm
      simp only [search_files, hm', Bool.false_eq_true, if_false, ite_false]
      rw [map_eraseContent_sortByScoreDesc, map_eraseContent_sortByScoreDesc,
        map_eraseContent_searchLoop provider provider' c query opts tree 0]
  · intro r hr
    by_cases hm : opts.search_in_content = true
    · simp only [search_files, hm, if_true, ite_true] at hr
      obtain ⟨item, hitem, rfl⟩ := List.mem_map.mp hr
      simp [contentResult, hic]
    · have hm' : opts.search_in_content = false := by
        simp only [Bool.not_eq_true] at hm
        exact hm
      simp only [search_files, hm', Bool.false_eq_true, if_false, ite_false] at hr
      rw [(perm_sortByScoreDesc _).mem_iff] at hr
      obtain ⟨item, hitem, rfl⟩ := mem_searchLoop provider c query opts tree 0 r hr
      simp [localResult, hic]

/-- The sample options of the C6 witness: local mode with content fetching. -/
def sampleOptsIC : SearchOptions := { max_results := 10, include_content := true }

/-- A provider that resolves every content request. -/
def sampleProviderA : GHRequest → Option GitHubFileContentModel :=
  fun _ => some sampleFile

/-- A provider whose every content fetch fails. -/
def sampleProviderB : GHRequest → Option GitHubFileContentModel :=
  fun _ => none

/-- Witness for C6: with content fetching on, a provider whose fetches all
fail yields the same results as one whose fetches all succeed, apart from
the content fields. -/
theorem search_files_content_degrades_witness :
    (search_files sampleProviderA sampleClient [] sampleTree "main"
        sampleOptsIC).map eraseContent
      = (search_files sampleProviderB sampleClient [] sampleTree "main"
        sampleOptsIC).map eraseContent :=
  (search_files_content_degrades sampleProviderA sampleProviderB sampleClient
    [] sampleTree "main" sampleOptsIC rfl).1

end LangCodeReader
